import Mathlib

/-
Verification of the sisyphus remote-build orchestrator (`src/sisyphus/host.py`)
against its natural-language specification.

The embedding models the `Host` class: remote state observed through directory
listings, the sentinel-file status machine, OS detection, path joining,
filesystem primitives, artifact transmutation and download.  Remote command
round trips are represented by their observable effect on an explicit state;
`raise SystemExit(1)` is represented by `Except.error ()`.
-/

namespace Sisyphus

/-! ### Constants from host.py (module level) -/

def LINUX_TYPE : String := "linux"
def WINDOWS_TYPE : String := "windows"
def LINUX_USER : String := "ec2-user"
def WINDOWS_USER : String := "dev-admin"
def LINUX_TOPDIR : String := "/tmp"
def WINDOWS_TOPDIR : String := "\\tmp"

/-! ### Host.status — sentinel-file status machine

`Host.status` lists the job directory and derives the status from which
marker files appear (host.py lines 376-387):

    files = self.ls(self.path(package))
    if "build.ready" in files: return "Complete"
    if "build.failed" in files: return "Failed"
    if "build.log" in files: return "Building"
    return "Not started"
-/

def statusOfFiles (files : List String) : String :=
  if "build.ready" ∈ files then "Complete"
  else if "build.failed" ∈ files then "Failed"
  else if "build.log" ∈ files then "Building"
  else "Not started"

/-! ### Host.run / Host.ls — remote listing with failure

`Host.ls` runs `ls -1A path` (POSIX) or `dir /b "path"` (Windows) through
`Host.run`.  When the path does not exist the remote command exits nonzero,
the transport raises, and `Host.run` (not quiet) logs the error and raises
`SystemExit(1)`.  The remote directory state is an association list from
existing directory paths to their listings.
-/

structure RemoteDirs where
  dirs : List (String × List String)
deriving DecidableEq

def RemoteDirs.ls (r : RemoteDirs) (path : String) : Except Unit (List String) :=
  match r.dirs.find? (fun e => e.1 == path) with
  | some e => Except.ok e.2
  | none => Except.error ()

/-- `Host.status` including the `Host.ls` round trip: fatal when the job
directory does not exist, otherwise the pure sentinel derivation. -/
def statusRun (r : RemoteDirs) (jobDir : String) : Except Unit String :=
  (r.ls jobDir).map statusOfFiles

/-! ### Host.wait — polling loop (host.py lines 390-421)

Each loop iteration calls `self.status(package)`; `Complete` returns `True`
and `Failed` returns `False` immediately (before the `reset_connection(60)`
at the bottom of the loop); any other status falls through to
`reset_connection(60)` and polls again.  A poll is the listing observed at
that iteration (`none` when the job directory is missing, which makes
`status` raise `SystemExit(1)`).  `reconnects` counts the
`reset_connection(60)` calls performed before returning.
-/

inductive WaitResult
  | finished (success : Bool) (reconnects : Nat)
  | fatal
  | diverged
deriving DecidableEq

def waitRun : List (Option (List String)) → WaitResult
  | [] => WaitResult.diverged
  | none :: _ => WaitResult.fatal
  | some files :: rest =>
    let s := statusOfFiles files
    if s = "Complete" then WaitResult.finished true 0
    else if s = "Failed" then WaitResult.finished false 0
    else
      match waitRun rest with
      | WaitResult.finished b n => WaitResult.finished b (n + 1)
      | r => r

/-! ### Host.__init__ / Host.__test_connection — OS detection

`__test_connection` opens a connection and runs the probe command; any
exception yields `False`, otherwise `True`.  A probe outcome is modelled as
`Option String` (captured stdout on success, `none` on any exception).
`__init__` probes POSIX first (`uname -a` as ec2-user), then Windows
(`ver` as dev-admin), and raises `SystemExit(1)` when both fail
(host.py lines 33-79).
-/

structure HostConfig where
  type : String
  user : String
  separator : Char
  topdir : String
  touch : String
  cat : String
  pkgdir : String
deriving DecidableEq

def test_connection (probe : Option String) : Bool := probe.isSome

def linuxConfig : HostConfig :=
  { type := LINUX_TYPE, user := LINUX_USER, separator := '/', topdir := LINUX_TOPDIR,
    touch := "touch", cat := "cat", pkgdir := "linux-64" }

def windowsConfig : HostConfig :=
  { type := WINDOWS_TYPE, user := WINDOWS_USER, separator := '\\', topdir := WINDOWS_TOPDIR,
    touch := "copy nul", cat := "type", pkgdir := "win-64" }

def detect (posixProbe windowsProbe : Option String) : Except Unit HostConfig :=
  if test_connection posixProbe then Except.ok linuxConfig
  else if test_connection windowsProbe then Except.ok windowsConfig
  else Except.error ()

/-! ### Shared helper lemmas about statusOfFiles -/

theorem statusOfFiles_ready {files : List String} (h : "build.ready" ∈ files) :
    statusOfFiles files = "Complete" := by
  simp [statusOfFiles, h]

theorem statusOfFiles_failed {files : List String} (h1 : "build.ready" ∉ files)
    (h2 : "build.failed" ∈ files) : statusOfFiles files = "Failed" := by
  simp [statusOfFiles, h1, h2]

theorem statusOfFiles_building {files : List String} (h1 : "build.ready" ∉ files)
    (h2 : "build.failed" ∉ files) (h3 : "build.log" ∈ files) :
    statusOfFiles files = "Building" := by
  simp [statusOfFiles, h1, h2, h3]

theorem statusOfFiles_notStarted {files : List String} (h1 : "build.ready" ∉ files)
    (h2 : "build.failed" ∉ files) (h3 : "build.log" ∉ files) :
    statusOfFiles files = "Not started" := by
  simp [statusOfFiles, h1, h2, h3]

/-- C1: the derived job status is a pure function of which of the three marker
files (`build.log`, `build.ready`, `build.failed`) appear in the directory
listing, evaluated with precedence ready → Complete, else failed → Failed,
else log → Building, else NotStarted. -/
theorem status_precedence (files : List String) :
    ("build.ready" ∈ files → statusOfFiles files = "Complete") ∧
    ("build.ready" ∉ files → "build.failed" ∈ files → statusOfFiles files = "Failed") ∧
    ("build.ready" ∉ files → "build.failed" ∉ files → "build.log" ∈ files →
      statusOfFiles files = "Building") ∧
    ("build.ready" ∉ files → "build.failed" ∉ files → "build.log" ∉ files →
      statusOfFiles files = "Not started") ∧
    (∀ files₂ : List String,
      ("build.ready" ∈ files ↔ "build.ready" ∈ files₂) →
      ("build.failed" ∈ files ↔ "build.failed" ∈ files₂) →
      ("build.log" ∈ files ↔ "build.log" ∈ files₂) →
      statusOfFiles files = statusOfFiles files₂) := by
  refine ⟨fun h => statusOfFiles_ready h,
          fun h1 h2 => statusOfFiles_failed h1 h2,
          fun h1 h2 h3 => statusOfFiles_building h1 h2 h3,
          fun h1 h2 h3 => statusOfFiles_notStarted h1 h2 h3,
          fun files₂ hr hf hl => ?_⟩
  unfold statusOfFiles
  simp only [hr, hf, hl]

/-- C1 witness: concrete evaluation of the precedence, `build.ready` wins. -/
theorem status_precedence_witness :
    statusOfFiles ["build.log", "build.failed", "build.ready"] = "Complete" :=
  (status_precedence ["build.log", "build.failed", "build.ready"]).1 (by simp)

theorem waitRun_cons_skip {l : List String} (hc : statusOfFiles l ≠ "Complete")
    (hf : statusOfFiles l ≠ "Failed") (polls : List (Option (List String))) :
    waitRun (some l :: polls) =
      match waitRun polls with
      | WaitResult.finished b n => WaitResult.finished b (n + 1)
      | r => r := by
  simp [waitRun, hc, hf]

/-- C2: `wait` never raises for a failed remote build — with the job directory
present at every poll it cannot hit the fatal path; at the first terminal
poll it returns `true` for Complete and `false` for Failed, and when the
first poll already shows `build.ready` it returns success with zero further
reconnection/sleep cycles. -/
theorem wait_terminal (pre : List (Option (List String))) (files : List String)
    (rest : List (Option (List String)))
    (hpre : ∀ x ∈ pre, ∃ l, x = some l ∧
      statusOfFiles l ≠ "Complete" ∧ statusOfFiles l ≠ "Failed") :
    ("build.ready" ∈ files →
      waitRun (pre ++ some files :: rest) = WaitResult.finished true pre.length) ∧
    ("build.ready" ∉ files → "build.failed" ∈ files →
      waitRun (pre ++ some files :: rest) = WaitResult.finished false pre.length) ∧
    (∀ polls : List (Option (List String)),
      (∀ x ∈ polls, x ≠ none) → waitRun polls ≠ WaitResult.fatal) := by
  refine ⟨?_, ?_, ?_⟩
  · intro hready
    induction pre with
    | nil =>
      simp [waitRun, statusOfFiles_ready hready]
    | cons x pre ih =>
      obtain ⟨l, rfl, hc, hf⟩ := hpre _ (List.mem_cons_self _ _)
      have ih' := ih (fun y hy => hpre y (List.mem_cons_of_mem _ hy))
      rw [List.cons_append, waitRun_cons_skip hc hf, ih']
      simp
  · intro hnready hfailed
    induction pre with
    | nil =>
      have hc : statusOfFiles files ≠ "Complete" := by
        rw [statusOfFiles_failed hnready hfailed]; decide
      simp [waitRun, hc, statusOfFiles_failed hnready hfailed]
    | cons x pre ih =>
      obtain ⟨l, rfl, hc, hf⟩ := hpre _ (List.mem_cons_self _ _)
      have ih' := ih (fun y hy => hpre y (List.mem_cons_of_mem _ hy))
      rw [List.cons_append, waitRun_cons_skip hc hf, ih']
      simp
  · intro polls hall
    induction polls with
    | nil => simp [waitRun]
    | cons x rest ih =>
      have hx := hall x (List.mem_cons_self x rest)
      have ih' := ih (fun y hy => hall y (List.mem_cons_of_mem _ hy))
      cases x with
      | none => exact absurd rfl hx
      | some l =>
        by_cases hc : statusOfFiles l = "Complete"
        · simp [waitRun, hc]
        · by_cases hf : statusOfFiles l = "Failed"
          · simp [waitRun, hc, hf]
          · rw [waitRun_cons_skip hc hf]
            cases h : waitRun rest with
            | finished b n => simp
            | fatal => exact absurd h ih'
            | diverged => simp

/-- C2 witness: a first poll that already shows `build.ready` finishes
successfully with zero reconnections. -/
theorem wait_terminal_witness :
    waitRun [some ["build.log", "build.ready"]] = WaitResult.finished true 0 :=
  (wait_terminal [] ["build.log", "build.ready"] [] (by simp)).1 (by simp)

/-- C3: detection fixes the POSIX settings when the POSIX probe succeeds, the
Windows settings when only the Windows probe succeeds, and is fatal with no
partial session when both probes fail. -/
theorem detect_spec (p w : Option String) :
    (test_connection p = true →
      ∃ cfg, detect p w = Except.ok cfg ∧ cfg.type = LINUX_TYPE ∧
        cfg.user = LINUX_USER ∧ cfg.separator = '/' ∧ cfg.topdir = LINUX_TOPDIR) ∧
    (test_connection p = false → test_connection w = true →
      ∃ cfg, detect p w = Except.ok cfg ∧ cfg.type = WINDOWS_TYPE ∧
        cfg.user = WINDOWS_USER ∧ cfg.separator = '\\' ∧ cfg.topdir = WINDOWS_TOPDIR) ∧
    (test_connection p = false → test_connection w = false →
      detect p w = Except.error ()) := by
  refine ⟨fun hp => ⟨linuxConfig, ?_, rfl, rfl, rfl, rfl⟩,
          fun hp hw => ⟨windowsConfig, ?_, rfl, rfl, rfl, rfl⟩,
          fun hp hw => ?_⟩
  · simp [detect, hp]
  · simp [detect, hp, hw]
  · simp [detect, hp, hw]

/-- C3 witness: concrete probe outcomes for all three cases. -/
theorem detect_spec_witness :
    (∃ cfg, detect (some "Linux x86_64") none = Except.ok cfg ∧ cfg.type = LINUX_TYPE ∧
      cfg.user = LINUX_USER ∧ cfg.separator = '/' ∧ cfg.topdir = LINUX_TOPDIR) ∧
    (∃ cfg, detect none (some "Microsoft Windows") = Except.ok cfg ∧ cfg.type = WINDOWS_TYPE ∧
      cfg.user = WINDOWS_USER ∧ cfg.separator = '\\' ∧ cfg.topdir = WINDOWS_TOPDIR) ∧
    detect none none = Except.error () :=
  ⟨(detect_spec (some "Linux x86_64") none).1 rfl,
   (detect_spec none (some "Microsoft Windows")).2.1 rfl rfl,
   (detect_spec none none).2.2 rfl rfl⟩

/-- C4 counterexample: a package with no prior state — its job directory was
never created — makes `status` fatal (`Host.ls` runs `ls -1A` on a missing
path, the command exits nonzero and `Host.run` raises `SystemExit(1)`), so
`status` does not return `Not started` there. -/
theorem status_missing_dir_counterexample :
    statusRun ⟨[]⟩ "/tmp/sisyphus/foo" = Except.error () ∧
    statusRun ⟨[]⟩ "/tmp/sisyphus/foo" ≠ Except.ok "Not started" := by
  constructor
  · rfl
  · intro h
    exact absurd (rfl.trans h.symm ▸ rfl : (Except.error () : Except Unit String) = Except.ok "Not started") (by simp)

/-- C4 amended: `status(package)` returns `Not started` whenever the job
directory exists (its listing succeeds) and contains none of the three marker
files; when the job directory was never created, the listing fails and
`status` aborts the invocation instead of returning `Not started`. -/
theorem status_no_prior_state (r : RemoteDirs) (p : String) :
    (∀ l, r.ls p = Except.ok l → "build.ready" ∉ l → "build.failed" ∉ l →
      "build.log" ∉ l → statusRun r p = Except.ok "Not started") ∧
    (r.ls p = Except.error () → statusRun r p = Except.error ()) := by
  constructor
  · intro l hls h1 h2 h3
    rw [statusRun, hls, Except.map, statusOfFiles_notStarted h1 h2 h3]
  · intro hls
    rw [statusRun, hls, Except.map]

/-- C4 amended witness: an existing empty job directory yields `Not started`;
a missing one is fatal. -/
theorem status_no_prior_state_witness :
    statusRun ⟨[("/tmp/sisyphus/foo", [])]⟩ "/tmp/sisyphus/foo" = Except.ok "Not started" ∧
    statusRun ⟨[]⟩ "/tmp/sisyphus/bar" = Except.error () :=
  ⟨(status_no_prior_state ⟨[("/tmp/sisyphus/foo", [])]⟩ "/tmp/sisyphus/foo").1 []
      rfl (by simp) (by simp) (by simp),
   (status_no_prior_state ⟨[]⟩ "/tmp/sisyphus/bar").2 rfl⟩

/-! ### Host.path_join (host.py lines 82-93)

    path = self.separator.join(list(paths))
    cleaned_path = ""
    for c in path:
        if len(cleaned_path) > 0 and c == self.separator and cleaned_path[-1] == self.separator:
            continue
        cleaned_path += c
    return cleaned_path

`joinSep` is `str.join` over the one-character separator, at the level of
character lists; `cleanStep`/`cleanChars` is the deduplication loop with
`cleaned_path` as the fold accumulator.
-/

def joinSep (sep : Char) : List String → List Char
  | [] => []
  | [p] => p.data
  | p :: rest => p.data ++ sep :: joinSep sep rest

def cleanStep (sep : Char) (cleaned : List Char) (c : Char) : List Char :=
  if cleaned ≠ [] ∧ c = sep ∧ cleaned.getLast? = some sep then cleaned else cleaned ++ [c]

def cleanChars (sep : Char) (cs : List Char) : List Char := cs.foldl (cleanStep sep) []

def path_join (sep : Char) (paths : List String) : String :=
  ⟨cleanChars sep (joinSep sep paths)⟩

/-- Recursive presentation of the deduplication loop: `prev` is the last
character already emitted (`none` before anything is emitted). -/
def collapseFrom (sep : Char) : Option Char → List Char → List Char
  | _, [] => []
  | prev, c :: rest =>
    if c = sep ∧ prev = some sep then collapseFrom sep prev rest
    else c :: collapseFrom sep (some c) rest

/-- State of the loop after consuming `xs` starting from `prev`. -/
def lastState (prev : Option Char) : List Char → Option Char
  | [] => prev
  | c :: rest => lastState (some c) rest

theorem foldl_cleanStep_eq (sep : Char) (cs : List Char) :
    ∀ acc : List Char, cs.foldl (cleanStep sep) acc = acc ++ collapseFrom sep acc.getLast? cs := by
  induction cs with
  | nil => intro acc; simp [collapseFrom]
  | cons c rest ih =>
    intro acc
    rw [List.foldl_cons]
    by_cases h : acc ≠ [] ∧ c = sep ∧ acc.getLast? = some sep
    · obtain ⟨hne, hc, hl⟩ := h
      have hstep : cleanStep sep acc c = acc := by simp [cleanStep, hne, hc, hl]
      rw [hstep, ih acc]
      have hskip : collapseFrom sep acc.getLast? (c :: rest) = collapseFrom sep acc.getLast? rest := by
        simp only [collapseFrom, hc, hl, and_self, if_true]
      rw [hskip]
    · have hcond : ¬(c = sep ∧ acc.getLast? = some sep) := by
        rcases eq_or_ne acc [] with rfl | hne
        · simp
        · intro hcl; exact h ⟨hne, hcl.1, hcl.2⟩
      have hstep : cleanStep sep acc c = acc ++ [c] := by
        rw [cleanStep, if_neg h]
      rw [hstep, ih (acc ++ [c])]
      have hkeep : collapseFrom sep acc.getLast? (c :: rest) = c :: collapseFrom sep (some c) rest := by
        simp only [collapseFrom, if_neg hcond]
      rw [hkeep, List.getLast?_concat, List.append_assoc]
      rfl

theorem cleanChars_eq (sep : Char) (cs : List Char) :
    cleanChars sep cs = collapseFrom sep none cs := by
  rw [cleanChars, foldl_cleanStep_eq]
  rfl

theorem collapseFrom_append (sep : Char) (xs : List Char) :
    ∀ (prev : Option Char) (ys : List Char),
      collapseFrom sep prev (xs ++ ys) =
        collapseFrom sep prev xs ++ collapseFrom sep (lastState prev xs) ys := by
  induction xs with
  | nil => intro prev ys; simp [collapseFrom, lastState]
  | cons c rest ih =>
    intro prev ys
    by_cases h : c = sep ∧ prev = some sep
    · obtain ⟨hc, hp⟩ := h
      simp only [List.cons_append, collapseFrom, hc, hp, and_self, if_true, lastState]
      exact ih (some sep) ys
    · simp only [List.cons_append, collapseFrom, if_neg h, lastState]
      exact congrArg (List.cons c) (ih (some c) ys)

theorem lastState_collapseFrom (sep : Char) (xs : List Char) :
    ∀ prev : Option Char, lastState prev (collapseFrom sep prev xs) = lastState prev xs := by
  induction xs with
  | nil => intro prev; simp [collapseFrom, lastState]
  | cons c rest ih =>
    intro prev
    by_cases h : c = sep ∧ prev = some sep
    · obtain ⟨hc, hp⟩ := h
      simp only [collapseFrom, hc, hp, and_self, if_true, lastState]
      exact ih (some sep)
    · simp only [collapseFrom, if_neg h, lastState]
      exact ih (some c)

theorem collapseFrom_idem (sep : Char) (xs : List Char) :
    ∀ prev : Option Char, collapseFrom sep prev (collapseFrom sep prev xs) = collapseFrom sep prev xs := by
  induction xs with
  | nil => intro prev; simp [collapseFrom]
  | cons c rest ih =>
    intro prev
    by_cases h : c = sep ∧ prev = some sep
    · simp only [collapseFrom, if_pos h]
      exact ih prev
    · simp only [collapseFrom, if_neg h]
      rw [ih (some c)]

theorem collapseFrom_collapseFrom_append (sep : Char) (x y : List Char) :
    collapseFrom sep none (collapseFrom sep none x ++ y) = collapseFrom sep none (x ++ y) := by
  rw [collapseFrom_append, collapseFrom_idem, lastState_collapseFrom, ← collapseFrom_append]

theorem collapseFrom_sep_sep (sep : Char) (prev : Option Char) (ys : List Char) :
    collapseFrom sep prev (sep :: sep :: ys) = collapseFrom sep prev (sep :: ys) := by
  by_cases h : prev = some sep
  · simp [collapseFrom, h]
  · simp [collapseFrom, h]

/-- C6: `path_join` is associative under concatenation and collapses empty
segments: `path_join(path_join(a, b), c) = path_join(a, b, c)` and
`path_join(a, "", b) = path_join(a, b)`. -/
theorem path_join_assoc (sep : Char) (a b c : String) :
    path_join sep [path_join sep [a, b], c] = path_join sep [a, b, c] ∧
    path_join sep [a, "", b] = path_join sep [a, b] := by
  constructor
  · apply congrArg String.mk
    show cleanChars sep ((cleanChars sep (a.data ++ sep :: b.data)) ++ sep :: c.data)
        = cleanChars sep (a.data ++ sep :: (b.data ++ sep :: c.data))
    rw [cleanChars_eq, cleanChars_eq, cleanChars_eq, collapseFrom_collapseFrom_append]
    simp [List.append_assoc]
  · apply congrArg String.mk
    show cleanChars sep (a.data ++ sep :: ([] ++ sep :: b.data))
        = cleanChars sep (a.data ++ sep :: b.data)
    rw [cleanChars_eq, cleanChars_eq, List.nil_append,
      collapseFrom_append sep a.data none (sep :: sep :: b.data),
      collapseFrom_append sep a.data none (sep :: b.data),
      collapseFrom_sep_sep]

theorem collapseFrom_head_ne (sep : Char) (xs : List Char) :
    ∀ b, (collapseFrom sep (some sep) xs).head? = some b → b ≠ sep := by
  induction xs with
  | nil => intro b hb; simp [collapseFrom] at hb
  | cons c rest ih =>
    intro b hb
    by_cases hc : c = sep
    · rw [show collapseFrom sep (some sep) (c :: rest) = collapseFrom sep (some sep) rest from by
        simp only [collapseFrom, hc, and_self, if_true]] at hb
      exact ih b hb
    · rw [show collapseFrom sep (some sep) (c :: rest) = c :: collapseFrom sep (some c) rest from by
        simp only [collapseFrom, hc, false_and, if_false]] at hb
      simp only [List.head?_cons, Option.some.injEq] at hb
      subst hb
      exact hc

theorem collapseFrom_chain' (sep : Char) (xs : List Char) :
    ∀ prev : Option Char,
      List.Chain' (fun a b => ¬(a = sep ∧ b = sep)) (collapseFrom sep prev xs) := by
  induction xs with
  | nil => intro prev; simp [collapseFrom]
  | cons c rest ih =>
    intro prev
    by_cases h : c = sep ∧ prev = some sep
    · simp only [collapseFrom, if_pos h]
      exact ih prev
    · simp only [collapseFrom, if_neg h]
      rw [List.chain'_cons']
      refine ⟨?_, ih (some c)⟩
      intro y hy hctr
      obtain ⟨hcsep, hysep⟩ := hctr
      rw [hcsep] at hy
      have hmem : (collapseFrom sep (some sep) rest).head? = some y := hy
      exact collapseFrom_head_ne sep rest y hmem hysep

/-- C10: for a non-empty list of segments — even segments containing, starting
or ending with separators — the joined result contains no two consecutive
separator characters, and `path_join` applied to its own output as a single
segment returns it unchanged. -/
theorem path_join_no_double_sep (sep : Char) (paths : List String) (_h : paths ≠ []) :
    List.Chain' (fun a b => ¬(a = sep ∧ b = sep)) (path_join sep paths).data ∧
    path_join sep [path_join sep paths] = path_join sep paths := by
  constructor
  · show List.Chain' _ (cleanChars sep (joinSep sep paths))
    rw [cleanChars_eq]
    exact collapseFrom_chain' sep (joinSep sep paths) none
  · apply congrArg String.mk
    show cleanChars sep (cleanChars sep (joinSep sep paths)) = cleanChars sep (joinSep sep paths)
    rw [cleanChars_eq, cleanChars_eq]
    exact collapseFrom_idem sep (joinSep sep paths) none

/-- C10 witness: a concrete join with embedded separators collapses runs and
is a fixed point of `path_join`. -/
theorem path_join_no_double_sep_witness :
    ([] : List String) ≠ ["a//", "//b"] ∧
    List.Chain' (fun a b => ¬(a = '/' ∧ b = '/')) (path_join '/' ["a//", "//b"]).data ∧
    path_join '/' [path_join '/' ["a//", "//b"]] = path_join '/' ["a//", "//b"] := by
  refine ⟨by simp, ?_, ?_⟩
  · exact (path_join_no_double_sep '/' ["a//", "//b"] (by simp)).1
  · exact (path_join_no_double_sep '/' ["a//", "//b"] (by simp)).2

/-! ### Host.exists / Host.isdir / Host.mkdir (host.py lines 129-177)

    def mkdir(self, path):
        if self.exists(path):
            if self.isdir(path):
                return
            else:
                raise SystemExit(1)
        self.run("mkdir -p path")        # POSIX; Windows runs mkdir "path"

The remote filesystem is an association list from path to entry kind; the
effect of the recursive create is that the target and each missing ancestor
become directories.
-/

inductive EntryKind
  | file
  | dir
deriving DecidableEq

structure FS where
  entries : List (String × EntryKind)
deriving DecidableEq

def lookupKind (es : List (String × EntryKind)) (path : String) : Option EntryKind :=
  (es.find? (fun e => e.1 == path)).map (fun e => e.2)

def FS.find (fs : FS) (path : String) : Option EntryKind := lookupKind fs.entries path

/-- `Host.exists`: remote existence test (`if [[ -e path ]]` / `if exist`). -/
def FS.existsb (fs : FS) (path : String) : Bool := (fs.find path).isSome

/-- `Host.isdir`: remote directory test (`if [[ -d path ]]` / `if exist path\*`). -/
def FS.isdir (fs : FS) (path : String) : Bool := decide (fs.find path = some EntryKind.dir)

/-- Proper ancestors and the target itself, as joined segment prefixes. -/
def pathPrefixes (sep : Char) (path : String) : List String :=
  ((path.split (· == sep)).inits.drop 1).map (fun segs => String.mk (joinSep sep segs))

def addDirEntry (d : String) (es : List (String × EntryKind)) : List (String × EntryKind) :=
  if (lookupKind es d).isSome then es else (d, EntryKind.dir) :: es

/-- Effect of `mkdir -p path` (POSIX) or `mkdir "path"` (cmd with command
extensions): the target and its missing ancestors become directories. -/
def FS.mkdirEffect (sep : Char) (fs : FS) (path : String) : FS :=
  ⟨(path, EntryKind.dir) :: (pathPrefixes sep path).foldr addDirEntry fs.entries⟩

def FS.mkdir (sep : Char) (fs : FS) (path : String) : Except Unit FS :=
  if fs.existsb path then
    if fs.isdir path then Except.ok fs
    else Except.error ()
  else Except.ok (fs.mkdirEffect sep path)

theorem lookupKind_cons (x : String) (k : EntryKind) (es : List (String × EntryKind))
    (d : String) : lookupKind ((x, k) :: es) d = if x = d then some k else lookupKind es d := by
  unfold lookupKind
  by_cases h : x = d
  · rw [List.find?_cons_of_pos _ (by simp [h]), if_pos h]
    rfl
  · rw [List.find?_cons_of_neg _ (by simp [h]), if_neg h]

theorem lookupKind_addDirEntry_self (d : String) (es : List (String × EntryKind)) :
    (lookupKind (addDirEntry d es) d).isSome = true := by
  unfold addDirEntry
  by_cases h : (lookupKind es d).isSome = true
  · rw [if_pos h]; exact h
  · rw [if_neg h, lookupKind_cons, if_pos rfl]; rfl

theorem lookupKind_addDirEntry_mono (d d' : String) (es : List (String × EntryKind))
    (h : (lookupKind es d').isSome = true) :
    (lookupKind (addDirEntry d es) d').isSome = true := by
  unfold addDirEntry
  by_cases hf : (lookupKind es d).isSome = true
  · rw [if_pos hf]; exact h
  · rw [if_neg hf, lookupKind_cons]
    by_cases hd : d = d'
    · rw [if_pos hd]; rfl
    · rw [if_neg hd]; exact h

theorem lookupKind_foldr_addDirEntry (ds : List String) (es : List (String × EntryKind)) :
    ∀ d ∈ ds, (lookupKind (ds.foldr addDirEntry es) d).isSome = true := by
  induction ds with
  | nil => intro d hd; simp at hd
  | cons d0 rest ih =>
    intro d hd
    rw [List.foldr_cons]
    rcases List.mem_cons.mp hd with rfl | hmem
    · exact lookupKind_addDirEntry_self d (rest.foldr addDirEntry es)
    · exact lookupKind_addDirEntry_mono d0 d _ (ih d hmem)

theorem mkdirEffect_find (sep : Char) (fs : FS) (path : String) :
    (fs.mkdirEffect sep path).find path = some EntryKind.dir := by
  show lookupKind ((path, EntryKind.dir) :: _) path = some EntryKind.dir
  rw [lookupKind_cons, if_pos rfl]

/-- C5: `mkdir` is idempotent and fatal on a file collision: a second call on
the result of a first call is a no-op returning the same state, an existing
directory is a no-op, an existing non-directory is a fatal error, and an
absent path is created recursively (the target and every ancestor prefix
exist afterwards). -/
theorem mkdir_spec (sep : Char) (fs : FS) (path : String) :
    (∀ fs', FS.mkdir sep fs path = Except.ok fs' → FS.mkdir sep fs' path = Except.ok fs') ∧
    (fs.isdir path = true → FS.mkdir sep fs path = Except.ok fs) ∧
    (fs.find path = some EntryKind.file → FS.mkdir sep fs path = Except.error ()) ∧
    (fs.existsb path = false →
      FS.mkdir sep fs path = Except.ok (fs.mkdirEffect sep path) ∧
      (fs.mkdirEffect sep path).isdir path = true ∧
      ∀ d ∈ pathPrefixes sep path, (fs.mkdirEffect sep path).existsb d = true) := by
  have heff_isdir : (fs.mkdirEffect sep path).isdir path = true := by
    rw [FS.isdir, mkdirEffect_find]
    rfl
  have heff_exists : (fs.mkdirEffect sep path).existsb path = true := by
    rw [FS.existsb, mkdirEffect_find]
    rfl
  refine ⟨?_, ?_, ?_, ?_⟩
  · intro fs' h
    rw [FS.mkdir] at h
    by_cases he : fs.existsb path = true
    · rw [if_pos he] at h
      by_cases hd : fs.isdir path = true
      · rw [if_pos hd] at h
        obtain rfl : fs = fs' := by
          simpa using h
        rw [FS.mkdir, if_pos he, if_pos hd]
      · rw [if_neg hd] at h
        simp at h
    · rw [if_neg he] at h
      obtain rfl : fs.mkdirEffect sep path = fs' := by
        simpa using h
      rw [FS.mkdir, if_pos heff_exists, if_pos heff_isdir]
  · intro hd
    have he : fs.existsb path = true := by
      rw [FS.isdir, decide_eq_true_iff] at hd
      rw [FS.existsb, hd]
      rfl
    rw [FS.mkdir, if_pos he, if_pos hd]
  · intro hfile
    have he : fs.existsb path = true := by
      rw [FS.existsb, hfile]
      rfl
    have hd : ¬fs.isdir path = true := by
      rw [FS.isdir, hfile]
      simp
    rw [FS.mkdir, if_pos he, if_neg hd]
  · intro he
    refine ⟨by rw [FS.mkdir, if_neg (by rw [he]; simp)], heff_isdir, ?_⟩
    intro d hd
    show (FS.find _ d).isSome = true
    show (lookupKind ((path, EntryKind.dir) :: _) d).isSome = true
    rw [lookupKind_cons]
    by_cases hpd : path = d
    · rw [if_pos hpd]; rfl
    · rw [if_neg hpd]
      exact lookupKind_foldr_addDirEntry _ fs.entries d hd

/-- C5 witness: concrete filesystem states exercising the no-op, the fatal
file collision, the recursive create and the idempotent second call. -/
theorem mkdir_spec_witness :
    FS.mkdir '/' ⟨[("/tmp/x", EntryKind.file)]⟩ "/tmp/x" = Except.error () ∧
    FS.mkdir '/' ⟨[("/tmp/d", EntryKind.dir)]⟩ "/tmp/d" =
      Except.ok ⟨[("/tmp/d", EntryKind.dir)]⟩ ∧
    FS.mkdir '/' ⟨[]⟩ "/tmp/sisyphus" =
      Except.ok ((FS.mk []).mkdirEffect '/' "/tmp/sisyphus") ∧
    FS.mkdir '/' ((FS.mk []).mkdirEffect '/' "/tmp/sisyphus") "/tmp/sisyphus" =
      Except.ok ((FS.mk []).mkdirEffect '/' "/tmp/sisyphus") :=
  ⟨(mkdir_spec '/' ⟨[("/tmp/x", EntryKind.file)]⟩ "/tmp/x").2.2.1 rfl,
   (mkdir_spec '/' ⟨[("/tmp/d", EntryKind.dir)]⟩ "/tmp/d").2.1 rfl,
   ((mkdir_spec '/' ⟨[]⟩ "/tmp/sisyphus").2.2.2 rfl).1,
   (mkdir_spec '/' ⟨[]⟩ "/tmp/sisyphus").1 _ ((mkdir_spec '/' ⟨[]⟩ "/tmp/sisyphus").2.2.2 rfl).1⟩

/-! ### Host.transmute (host.py lines 509-527)

    all_bz2_pkgs = [p for p in self.ls(pkgdir) if p.endswith(".tar.bz2")]
    all_conda_pkgs = [p for p in self.ls(pkgdir) if p.endswith(".conda")]
    bz2_pkgs = [p for p in all_bz2_pkgs if re.sub("tar.bz2$", "conda", p) not in all_conda_pkgs]
    conda_pkgs = [p for p in all_conda_pkgs if re.sub("conda$", "tar.bz2", p) not in all_bz2_pkgs]
    for bz2_pkg in bz2_pkgs: ...  cph t bz2_pkg .conda
    for conda_pkg in conda_pkgs: ...  cph t conda_pkg .tar.bz2
-/

/-- Python `p.endswith(suffix)`. -/
def endsW (suffix p : String) : Bool := suffix.data.isSuffixOf p.data

/-- `re.sub("tar.bz2$", "conda", p)` for `p` ending in `.tar.bz2`: the final
7 characters `tar.bz2` are replaced by `conda`. -/
def bz2ToCondaName (p : String) : String := ⟨p.data.take (p.data.length - 7) ++ "conda".data⟩

/-- `re.sub("conda$", "tar.bz2", p)` for `p` ending in `.conda`: the final
5 characters `conda` are replaced by `tar.bz2`. -/
def condaToBz2Name (p : String) : String := ⟨p.data.take (p.data.length - 5) ++ "tar.bz2".data⟩

def allBz2Pkgs (files : List String) : List String :=
  files.filter (fun p => endsW ".tar.bz2" p)

def allCondaPkgs (files : List String) : List String :=
  files.filter (fun p => endsW ".conda" p)

/-- The `.tar.bz2` artifacts whose `.conda` counterpart is missing. -/
def bz2Pkgs (files : List String) : List String :=
  (allBz2Pkgs files).filter (fun p => !((allCondaPkgs files).contains (bz2ToCondaName p)))

/-- The `.conda` artifacts whose `.tar.bz2` counterpart is missing. -/
def condaPkgs (files : List String) : List String :=
  (allCondaPkgs files).filter (fun p => !((allBz2Pkgs files).contains (condaToBz2Name p)))

/-- The sequence of `cph t` conversion inputs, in program order. -/
def transmuteConversions (files : List String) : List String :=
  bz2Pkgs files ++ condaPkgs files

/-- Build-directory contents after `transmute`: every conversion drops the
missing counterpart file next to its source. -/
def transmuteResult (files : List String) : List String :=
  files ++ (bz2Pkgs files).map bz2ToCondaName ++ (condaPkgs files).map condaToBz2Name

theorem endsW_iff (suffix p : String) : endsW suffix p = true ↔ suffix.data <:+ p.data := by
  simp [endsW]

theorem bz2ToCondaName_endsW {p : String} (h : endsW ".tar.bz2" p = true) :
    endsW ".conda" (bz2ToCondaName p) = true := by
  rw [endsW_iff] at h ⊢
  obtain ⟨q, hq⟩ := h
  show ".conda".data <:+ p.data.take (p.data.length - 7) ++ "conda".data
  rw [← hq]
  have hlen : (q ++ ".tar.bz2".data).length - 7 = q.length + 1 := by
    rw [List.length_append]
    rfl
  rw [hlen, List.take_append]
  exact ⟨q, by simp⟩

theorem condaToBz2Name_endsW {p : String} (h : endsW ".conda" p = true) :
    endsW ".tar.bz2" (condaToBz2Name p) = true := by
  rw [endsW_iff] at h ⊢
  obtain ⟨q, hq⟩ := h
  show ".tar.bz2".data <:+ p.data.take (p.data.length - 5) ++ "tar.bz2".data
  rw [← hq]
  have hlen : (q ++ ".conda".data).length - 5 = q.length + 1 := by
    rw [List.length_append]
    rfl
  rw [hlen, List.take_append]
  exact ⟨q, by simp⟩

theorem endsW_disjoint {p : String} (h1 : endsW ".tar.bz2" p = true) :
    endsW ".conda" p = false := by
  by_contra hcontra
  rw [Bool.not_eq_false, endsW_iff] at hcontra
  rw [endsW_iff] at h1
  obtain ⟨q1, hq1⟩ := h1
  obtain ⟨q2, hq2⟩ := hcontra
  have e1 : p.data.getLast? = some '2' := by
    rw [← hq1, List.getLast?_append]
    rfl
  have e2 : p.data.getLast? = some 'a' := by
    rw [← hq2, List.getLast?_append]
    rfl
  rw [e1] at e2
  simp at e2

theorem mem_allCondaPkgs_iff {files : List String} {x : String}
    (hx : endsW ".conda" x = true) : x ∈ allCondaPkgs files ↔ x ∈ files := by
  rw [allCondaPkgs, List.mem_filter]
  exact ⟨fun h => h.1, fun h => ⟨h, hx⟩⟩

theorem mem_allBz2Pkgs_iff {files : List String} {x : String}
    (hx : endsW ".tar.bz2" x = true) : x ∈ allBz2Pkgs files ↔ x ∈ files := by
  rw [allBz2Pkgs, List.mem_filter]
  exact ⟨fun h => h.1, fun h => ⟨h, hx⟩⟩

/-- C7: `transmute` is a set difference over the build-directory listing: an
artifact base name present in exactly one of the two formats receives exactly
one conversion producing the missing counterpart, a name present in both
formats is never converted, and afterwards every name present beforehand has
both formats present. -/
theorem transmute_set_difference (files : List String) (hnd : files.Nodup)
    (p : String) (hp : p ∈ files) :
    (endsW ".tar.bz2" p = true →
      (bz2ToCondaName p ∈ files → p ∉ transmuteConversions files) ∧
      (bz2ToCondaName p ∉ files → (transmuteConversions files).count p = 1) ∧
      bz2ToCondaName p ∈ transmuteResult files ∧ p ∈ transmuteResult files) ∧
    (endsW ".conda" p = true →
      (condaToBz2Name p ∈ files → p ∉ transmuteConversions files) ∧
      (condaToBz2Name p ∉ files → (transmuteConversions files).count p = 1) ∧
      condaToBz2Name p ∈ transmuteResult files ∧ p ∈ transmuteResult files) := by
  constructor
  · intro hb
    have hnotconda : p ∉ condaPkgs files := by
      intro hmem
      have : endsW ".conda" p = true := (List.mem_filter.mp (List.mem_filter.mp hmem).1).2
      rw [endsW_disjoint hb] at this
      exact absurd this (by simp)
    have hmem_bz2 : p ∈ allBz2Pkgs files := List.mem_filter.mpr ⟨hp, hb⟩
    refine ⟨?_, ?_, ?_, List.mem_append_left _ (List.mem_append_left _ hp)⟩
    · intro hc hmem
      rcases List.mem_append.mp hmem with hmem1 | hmem2
      · have hpred := (List.mem_filter.mp hmem1).2
        rw [Bool.not_eq_eq_eq_not, Bool.not_true, ← Bool.not_eq_true, List.contains,
          List.elem_eq_mem, decide_eq_true_iff] at hpred
        exact hpred ((mem_allCondaPkgs_iff (bz2ToCondaName_endsW hb)).mpr hc)
      · exact hnotconda hmem2
    · intro hc
      have hpmem : p ∈ bz2Pkgs files := by
        rw [bz2Pkgs, List.mem_filter]
        refine ⟨hmem_bz2, ?_⟩
        rw [Bool.not_eq_eq_eq_not, Bool.not_true, ← Bool.not_eq_true, List.contains,
          List.elem_eq_mem, decide_eq_true_iff]
        intro hmem
        exact hc ((mem_allCondaPkgs_iff (bz2ToCondaName_endsW hb)).mp hmem)
      rw [transmuteConversions, List.count_append,
        List.count_eq_zero_of_not_mem hnotconda, Nat.add_zero, bz2Pkgs, allBz2Pkgs,
        List.filter_filter, List.count_filter, List.count_eq_one_of_mem hnd hp]
      have hpred : (!(allCondaPkgs files).contains (bz2ToCondaName p)) = true :=
        (List.mem_filter.mp hpmem).2
      rw [hb, Bool.and_true]
      exact hpred
    · by_cases hc : bz2ToCondaName p ∈ files
      · exact List.mem_append_left _ (List.mem_append_left _ hc)
      · have hpmem : p ∈ bz2Pkgs files := by
          rw [bz2Pkgs, List.mem_filter]
          refine ⟨hmem_bz2, ?_⟩
          rw [Bool.not_eq_eq_eq_not, Bool.not_true, ← Bool.not_eq_true, List.contains,
            List.elem_eq_mem, decide_eq_true_iff]
          intro hmem
          exact hc ((mem_allCondaPkgs_iff (bz2ToCondaName_endsW hb)).mp hmem)
        exact List.mem_append_left _
          (List.mem_append_right _ (List.mem_map_of_mem bz2ToCondaName hpmem))
  · intro hb
    have hbz2false : endsW ".tar.bz2" p = false := by
      by_contra hcontra
      rw [Bool.not_eq_false] at hcontra
      rw [endsW_disjoint hcontra] at hb
      exact absurd hb (by simp)
    have hnotbz2 : p ∉ bz2Pkgs files := by
      intro hmem
      have : endsW ".tar.bz2" p = true := (List.mem_filter.mp (List.mem_filter.mp hmem).1).2
      rw [hbz2false] at this
      exact absurd this (by simp)
    have hmem_conda : p ∈ allCondaPkgs files := List.mem_filter.mpr ⟨hp, hb⟩
    refine ⟨?_, ?_, ?_, List.mem_append_left _ (List.mem_append_left _ hp)⟩
    · intro hc hmem
      rcases List.mem_append.mp hmem with hmem1 | hmem2
      · exact hnotbz2 hmem1
      · have hpred := (List.mem_filter.mp hmem2).2
        rw [Bool.not_eq_eq_eq_not, Bool.not_true, ← Bool.not_eq_true, List.contains,
          List.elem_eq_mem, decide_eq_true_iff] at hpred
        exact hpred ((mem_allBz2Pkgs_iff (condaToBz2Name_endsW hb)).mpr hc)
    · intro hc
      have hpmem : p ∈ condaPkgs files := by
        rw [condaPkgs, List.mem_filter]
        refine ⟨hmem_conda, ?_⟩
        rw [Bool.not_eq_eq_eq_not, Bool.not_true, ← Bool.not_eq_true, List.contains,
          List.elem_eq_mem, decide_eq_true_iff]
        intro hmem
        exact hc ((mem_allBz2Pkgs_iff (condaToBz2Name_endsW hb)).mp hmem)
      rw [transmuteConversions, List.count_append,
        List.count_eq_zero_of_not_mem hnotbz2, Nat.zero_add, condaPkgs, allCondaPkgs,
        List.filter_filter, List.count_filter, List.count_eq_one_of_mem hnd hp]
      have hpred : (!(allBz2Pkgs files).contains (condaToBz2Name p)) = true :=
        (List.mem_filter.mp hpmem).2
      rw [hb, Bool.and_true]
      exact hpred
    · by_cases hc : condaToBz2Name p ∈ files
      · exact List.mem_append_left _ (List.mem_append_left _ hc)
      · have hpmem : p ∈ condaPkgs files := by
          rw [condaPkgs, List.mem_filter]
          refine ⟨hmem_conda, ?_⟩
          rw [Bool.not_eq_eq_eq_not, Bool.not_true, ← Bool.not_eq_true, List.contains,
            List.elem_eq_mem, decide_eq_true_iff]
          intro hmem
          exact hc ((mem_allBz2Pkgs_iff (condaToBz2Name_endsW hb)).mp hmem)
        exact List.mem_append_right _ (List.mem_map_of_mem condaToBz2Name hpmem)

/-- C7 witness: with `a` in both formats, `b` only as `.tar.bz2` and `c` only
as `.conda`, `b` and `c` are each converted exactly once, `a` is never
converted, and every counterpart is present afterwards. -/
theorem transmute_set_difference_witness :
    "a.tar.bz2" ∉ transmuteConversions ["a.tar.bz2", "a.conda", "b.tar.bz2", "c.conda"] ∧
    (transmuteConversions ["a.tar.bz2", "a.conda", "b.tar.bz2", "c.conda"]).count "b.tar.bz2" = 1 ∧
    (transmuteConversions ["a.tar.bz2", "a.conda", "b.tar.bz2", "c.conda"]).count "c.conda" = 1 ∧
    bz2ToCondaName "b.tar.bz2" ∈ transmuteResult ["a.tar.bz2", "a.conda", "b.tar.bz2", "c.conda"] ∧
    condaToBz2Name "c.conda" ∈ transmuteResult ["a.tar.bz2", "a.conda", "b.tar.bz2", "c.conda"] :=
  ⟨((transmute_set_difference _ (by decide) "a.tar.bz2" (by decide)).1 (by decide)).1 (by decide),
   ((transmute_set_difference _ (by decide) "b.tar.bz2" (by decide)).1 (by decide)).2.1 (by decide),
   ((transmute_set_difference _ (by decide) "c.conda" (by decide)).2 (by decide)).2.1 (by decide),
   ((transmute_set_difference _ (by decide) "b.tar.bz2" (by decide)).1 (by decide)).2.2.1,
   ((transmute_set_difference _ (by decide) "c.conda" (by decide)).2 (by decide)).2.2.1⟩

/-! ### Host.download (host.py lines 434-506)

Observable step sequence: `transmute` first; list the per-architecture build
directory and keep the names ending in `.tar.bz2` or `.conda` (the source
also prefixes each with the architecture directory for the tar command,
which does not change emptiness); bail out with a warning when none match;
run the remote `tar -cf`; check `exists(tf)` and raise `SystemExit(1)` when
the tar is missing; otherwise remove the previous local extraction, transfer
with `connection.get`, extract locally, and delete the local and remote tar.
-/

inductive DlAct
  | conv (src : String)
  | tarCreate (allMode : Bool)
  | rmPrevLocal
  | get
  | extract
  | rmLocalTar
  | rmRemoteTar
deriving DecidableEq

structure DlEnv where
  listing : List String
  tarExists : Bool
  getOk : Bool

def download (env : DlEnv) (allFlag : Bool) : List DlAct × Except Unit Unit :=
  let convActs := (transmuteConversions env.listing).map DlAct.conv
  let files := (transmuteResult env.listing).filter
    (fun f => endsW ".tar.bz2" f || endsW ".conda" f)
  if files.isEmpty then (convActs, Except.ok ())
  else
    let t1 := convActs ++ [DlAct.tarCreate allFlag]
    if env.tarExists = false then (t1, Except.error ())
    else
      let t2 := t1 ++ [DlAct.rmPrevLocal, DlAct.get]
      if env.getOk = false then (t2, Except.error ())
      else (t2 ++ [DlAct.extract, DlAct.rmLocalTar, DlAct.rmRemoteTar], Except.ok ())

/-- C8: when the build directory has at least one matching artifact but the
remote tar file does not exist after the archive command ran, `download` is
fatal and aborts before any transfer or extraction step. -/
theorem download_missing_tar_fatal (env : DlEnv) (allFlag : Bool) (f : String)
    (hf : f ∈ env.listing) (hsuf : endsW ".tar.bz2" f = true)
    (htar : env.tarExists = false) :
    (download env allFlag).2 = Except.error () ∧
    DlAct.get ∉ (download env allFlag).1 ∧
    DlAct.extract ∉ (download env allFlag).1 := by
  have hmem : f ∈ (transmuteResult env.listing).filter
      (fun f => endsW ".tar.bz2" f || endsW ".conda" f) := by
    rw [List.mem_filter]
    exact ⟨List.mem_append_left _ (List.mem_append_left _ hf), by rw [hsuf]; rfl⟩
  have hne : ((transmuteResult env.listing).filter
      (fun f => endsW ".tar.bz2" f || endsW ".conda" f)).isEmpty = false := by
    rw [List.isEmpty_eq_false]
    exact List.ne_nil_of_mem hmem
  rw [download]
  simp only [hne, Bool.false_eq_true, if_false, htar, if_true]
  refine ⟨trivial, ?_, ?_⟩
  · intro hmem2
    rcases List.mem_append.mp hmem2 with h1 | h2
    · obtain ⟨x, _, hx⟩ := List.mem_map.mp h1
      exact absurd hx (by simp)
    · simp at h2
  · intro hmem2
    rcases List.mem_append.mp hmem2 with h1 | h2
    · obtain ⟨x, _, hx⟩ := List.mem_map.mp h1
      exact absurd hx (by simp)
    · simp at h2

/-- C8 witness: one artifact listed, tar reported missing after creation. -/
theorem download_missing_tar_fatal_witness :
    (download ⟨["pkg-1.0.tar.bz2"], false, true⟩ false).2 = Except.error () ∧
    DlAct.get ∉ (download ⟨["pkg-1.0.tar.bz2"], false, true⟩ false).1 ∧
    DlAct.extract ∉ (download ⟨["pkg-1.0.tar.bz2"], false, true⟩ false).1 :=
  download_missing_tar_fatal ⟨["pkg-1.0.tar.bz2"], false, true⟩ false "pkg-1.0.tar.bz2"
    (by decide) (by decide) rfl

/-- C9: with zero files matching either archive suffix in the build-output
directory, `download` returns without error and performs no conversion,
archive-creation, transfer, extraction or deletion operation. -/
theorem download_no_artifacts (env : DlEnv) (allFlag : Bool)
    (h : ∀ f ∈ env.listing, endsW ".tar.bz2" f = false ∧ endsW ".conda" f = false) :
    download env allFlag = ([], Except.ok ()) := by
  have hbz2 : allBz2Pkgs env.listing = [] := by
    rw [allBz2Pkgs, List.filter_eq_nil_iff]
    intro a ha
    rw [(h a ha).1]
    simp
  have hconda : allCondaPkgs env.listing = [] := by
    rw [allCondaPkgs, List.filter_eq_nil_iff]
    intro a ha
    rw [(h a ha).2]
    simp
  have hbz2p : bz2Pkgs env.listing = [] := by rw [bz2Pkgs, hbz2]; rfl
  have hcondap : condaPkgs env.listing = [] := by rw [condaPkgs, hconda]; rfl
  have hconv : transmuteConversions env.listing = [] := by
    rw [transmuteConversions, hbz2p, hcondap]
    rfl
  have hres : transmuteResult env.listing = env.listing := by
    rw [transmuteResult, hbz2p, hcondap]
    simp
  have hfilter : (transmuteResult env.listing).filter
      (fun f => endsW ".tar.bz2" f || endsW ".conda" f) = [] := by
    rw [hres, List.filter_eq_nil_iff]
    intro a ha
    rw [(h a ha).1, (h a ha).2]
    simp
  rw [download]
  simp only [hfilter, List.isEmpty_nil, if_true, hconv, List.map_nil]

/-- C9 witness: a listing with only non-archive entries downloads nothing and
succeeds. -/
theorem download_no_artifacts_witness :
    download ⟨["build.log", "notes.txt"], true, true⟩ false = ([], Except.ok ()) :=
  download_no_artifacts ⟨["build.log", "notes.txt"], true, true⟩ false (by decide)

end Sisyphus
